import Mathlib

/-!
Shallow embedding of the batch-wise mixing transforms of the
`predictive-analytics-lab/ranzen` repository:

* `ranzen/torch/transforms/mixup.py`  (class `RandomMixUp`),
* `ranzen/torch/transforms/cutmix.py` (class `RandomCutMix`),
* the legacy `kit/torch/transforms/mixup.py` (class `RandomMixUp`).

Tensors are modelled as (nested) lists over a scalar field `α` (instantiated
with `ℚ` for concrete evaluation and with `ℝ` where the geometric mode needs
real powers).  The random draws consumed by a call (the Bernoulli selection
mask, the pairing offsets, the variable-degree relative indices produced by
`batched_randint`, the lambda samples, and the CutMix box extents and start
positions) are passed in explicitly as a `Draws` record: the transform is the
deterministic function of its inputs and those draws, exactly as in the
source.  `batched_randint` itself lives in `ranzen/torch/sampling.py`, which
is not part of the sources here; per its documented contract a draw for a row
of degree `d` is an integer in `{0, ..., d-1}`, which is how the draws are
constrained in the theorems below.

Python in-place/aliasing semantics are made explicit: an outcome records the
state of the caller-owned buffers after the call (`callerInputs`,
`callerTargets`) next to the returned value, and `ret` is an `Except` to model
raised errors.  Emission of a `RuntimeWarning` is recorded in the `warned`
flag.
-/

namespace Ranzen

/-- Mirror of the `MixUpMode` enum of `ranzen/torch/transforms/mixup.py`. -/
inductive MixUpMode
  | linear
  | geometric
  deriving DecidableEq, Repr

/-- Targets of a batch: either label-encoded (a length-N vector of class
indices, dtype int) or a one-hot / probability matrix (N × C, dtype float).
The source distinguishes the two by `torch.atleast_1d(targets.squeeze()).ndim == 1`. -/
inductive MixTargets (α : Type)
  | labels (ls : List ℕ)
  | matrix (m : List (List α))
  deriving DecidableEq

/-- Length of dimension 0 of the targets tensor. -/
def MixTargets.len {α : Type} : MixTargets α → ℕ
  | .labels ls => ls.length
  | .matrix m => m.length

/-- The `groups_or_edges` argument of `RandomMixUp._transform`: a vector of
group labels (ndim 1 after squeezing) or a boolean connectivity matrix
(ndim 2, dtype bool). -/
inductive GroupsOrEdges
  | grp (gs : List ℕ)
  | adj (m : List (List Bool))
  deriving DecidableEq

/-- Errors raised by the transforms (RuntimeError / ValueError / IndexError
in the Python source). -/
inductive MixError
  | missingNumClasses
  | badNumClasses
  | groupsSizeMismatch
  | indexOutOfBounds
  | oneHotOutOfRange
  | oneHotOnFloats
  | targetsSizeMismatch
  | randintEmptyRange
  | broadcastMismatch
  deriving DecidableEq, Repr

/-- Configuration of a `RandomMixUp` instance (its `__init__` attributes).
`pw` is the power function of the scalar dtype, used by the geometric mode
(`tensor_a ** lambda_ * tensor_b ** lambda_c`); it is a parameter because the
embedding is generic in the scalar type. -/
structure MixUpCfg (α : Type) where
  mode : MixUpMode
  p : ℚ
  numClasses : Option ℕ
  featurewise : Bool
  inplace : Bool
  pw : α → α → α

/-- The random draws consumed by one `RandomMixUp._transform` call:
`selMask i` is the outcome of `rand_i < p` for the Bernoulli selection
(used only when `0 < p < 1`); `offsets` are the draws of
`torch.randint(low=1, high=batch_size, ...)`; `relDraws` are the outputs of
`batched_randint(degrees)`; `lamDraws` are the samples of
`lambda_sampler.sample` (one row per selected sample, of length 1 in
sample-wise mode and of feature length in featurewise mode). -/
structure MixDraws (α : Type) where
  selMask : List Bool
  offsets : List ℕ
  relDraws : List ℕ
  lamDraws : List (List α)

instance {ε β : Type} [DecidableEq ε] [DecidableEq β] : DecidableEq (Except ε β) := fun a b =>
  match a, b with
  | .error e, .error f =>
      if h : e = f then isTrue (congrArg Except.error h)
      else isFalse (fun hc => h (Except.error.inj hc))
  | .error _, .ok _ => isFalse (fun hc => Except.noConfusion hc)
  | .ok _, .error _ => isFalse (fun hc => Except.noConfusion hc)
  | .ok v, .ok w =>
      if h : v = w then isTrue (congrArg Except.ok h)
      else isFalse (fun hc => h (Except.ok.inj hc))

/-- Outcome of a call: the caller-owned buffers as observable after the call
returns or the error propagates, the warning flag, and the returned value
(inputs and, when targets were supplied, targets). -/
structure MixOutcome (ι : Type) (α : Type) where
  callerInputs : List ι
  callerTargets : Option (MixTargets α)
  warned : Bool
  ret : Except MixError (List ι × Option (MixTargets α))
  deriving DecidableEq

/-- Mirror of lines 298-309 of mixup.py: with `p < 1` the selected indices are
those whose Bernoulli draw is positive; with `p >= 1` all of `arange(batch_size)`. -/
def selIndices (p : ℚ) (n : ℕ) (selMask : List Bool) : List ℕ :=
  if p < 1 then (List.range n).filter (fun i => selMask.getD i false)
  else List.range n

/-- Mirror of line 322 of mixup.py: the unconstrained partner of index `i`
under offset `o` is `(i + o) % batch_size`. -/
def pairOf (n i o : ℕ) : ℕ :=
  (i + o) % n

/-- Unconstrained pairing (lines 311-322): one offset per selected index. -/
def pairUnconstrained (n : ℕ) (indices offsets : List ℕ) : List ℕ :=
  (indices.zip offsets).map (fun io => pairOf n io.1 io.2)

/-- Mirror of `Tensor.fill_diagonal_(False)`: entry `(k, k)` of every row `k`
is forced to `False` (note: position `(k, k)`, not `(k, indices[k])`). -/
def fillDiagFalse (m : List (List Bool)) : List (List Bool) :=
  ((List.range m.length).zip m).map (fun kr => kr.2.set kr.1 false)

/-- The connectivity rows of lines 331-348 of mixup.py: for group labels,
row `k` compares the group of `indices[k]` against every group (with `!=` in
cross-group mode and `==`, diagonal-filled, in within-group mode); for an
explicit adjacency matrix, the rows at `indices`, diagonal-filled. -/
def connectionsOf (g : GroupsOrEdges) (crossGroup : Bool)
    (indices : List ℕ) : List (List Bool) :=
  match g with
  | .grp gs =>
      let conns := indices.map (fun i => gs.map (fun gj =>
        if crossGroup then decide (gs.getD i 0 ≠ gj) else decide (gs.getD i 0 = gj)))
      if crossGroup then conns else fillDiagFalse conns
  | .adj m => fillDiagFalse (indices.map (fun i => m.getD i []))

/-- Degrees (line 355): per-row count of positive connectivity entries. -/
def degreesOf (conns : List (List Bool)) : List ℕ :=
  conns.map (fun row => row.countP id)

/-- Lines 356-372: keep only the rows whose degree is nonzero (the
`is_connected` filtering that drops pairless samples). Returns the filtered
(indices, degrees, connections). -/
def filterConnected (indices degrees : List ℕ) (conns : List (List Bool)) :
    List ℕ × List ℕ × List (List Bool) :=
  let z := ((indices.zip (degrees.zip conns)).filter (fun t => t.2.1 ≠ 0))
  (z.map (fun t => t.1), z.map (fun t => t.2.1), z.map (fun t => t.2.2))

/-- Column indices of the positive entries of one connectivity row. -/
def trueCols (row : List Bool) : List ℕ :=
  (List.range row.length).filter (fun j => row.getD j false)

/-- Mirror of `connections.nonzero(as_tuple=True)` (line 388): the column
components of all positive entries in row-major order. -/
def absPosInds (conns : List (List Bool)) : List ℕ :=
  (conns.map trueCols).flatten

/-- Mirror of line 386: the relative per-row indices shifted by the exclusive
cumulative sum of the degrees, giving positions into the flattened list of
positive entries. -/
def flatPairPos (relDraws degrees : List ℕ) : List ℕ :=
  (List.range relDraws.length).map (fun k => relDraws.getD k 0 + (degrees.take k).sum)

/-- Group- or connectivity-constrained pairing (lines 355-389 of mixup.py):
filters out zero-degree rows (setting the warning flag when any is dropped)
and maps the `batched_randint` draw of each surviving row to an absolute
partner index.  Returns (final indices, partner indices, warned). -/
def groupPairIndices (conns : List (List Bool)) (indices : List ℕ)
    (relDraws : List ℕ) : List ℕ × List ℕ × Bool :=
  let degrees := degreesOf conns
  let fz := filterConnected indices degrees conns
  let warned := decide (fz.1.length < degrees.length)
  let pairIndices := (flatPairPos relDraws fz.2.1).map
    (fun t => (absPosInds fz.2.2).getD t 0)
  (fz.1, pairIndices, warned)

/-- Broadcasting of a lambda row against a feature dimension of size `len`:
a singleton row (sample-wise lambda of shape `(1,)*(ndim-1)`) is replicated,
a featurewise row is used as is. -/
def broadcastLam {α : Type} [Inhabited α] (lam : List α) (len : ℕ) : List α :=
  if lam.length = 1 then List.replicate len (lam.getD 0 default) else lam

/-- Mirror of `RandomMixUp._mix` (lines 253-257): linear mode is
`lambda_ * a + (1 - lambda_) * b`, geometric mode is
`a ** lambda_ * b ** (1 - lambda_)` with the dtype power `pw`. -/
def mixElem {α : Type} [Field α] (mode : MixUpMode) (pw : α → α → α)
    (lam a b : α) : α :=
  if mode = MixUpMode.linear then lam * a + (1 - lam) * b
  else pw a lam * pw b (1 - lam)

/-- Elementwise `_mix` of two equal-shape rows under a broadcast lambda row. -/
def mixRow {α : Type} [Field α] [Inhabited α] (mode : MixUpMode)
    (pw : α → α → α) (lam : List α) (a b : List α) : List α :=
  List.zipWith (fun l xy => mixElem mode pw l xy.1 xy.2)
    (broadcastLam lam a.length) (a.zip b)

/-- Mirror of advanced-indexing assignment `buf[idxs] = vals`: positionwise
`List.set` (indices are distinct in every use below). -/
def scatterRows {β : Type} (buf : List β) (idxs : List ℕ) (vals : List β) :
    List β :=
  (idxs.zip vals).foldl (fun b iv => b.set iv.1 iv.2) buf

/-- Mirror of `torch.nn.functional.one_hot(l, num_classes=nc)` for one label. -/
def oneHot {α : Type} [Field α] (nc l : ℕ) : List α :=
  (List.range nc).map (fun j => if j = l then 1 else 0)

/-- Empirical mean of a flattened lambda row (`flatten(start_dim=1).mean(1)`). -/
def meanList {α : Type} [Field α] (row : List α) : α :=
  row.sum / (row.length : α)

/-- The per-sample scalar lambda used for target interpolation (lines
425-429): the mean of the row in featurewise mode, the scalar itself
otherwise. -/
def targetLam {α : Type} [Field α] (featurewise : Bool) (lamRow : List α) : α :=
  if featurewise then meanList lamRow else lamRow.getD 0 0

variable {α : Type} [Field α] [Inhabited α]

set_option linter.unusedSectionVars false

/-- The target-mixing tail of `RandomMixUp._transform` (lines 423-436): mixes
the rows of the prepared float target matrix `T` at `indices` with the rows at
`pairIndices`, using the per-sample scalar `targetLam`.  `aliasesCaller` is
true when the local targets tensor aliases the caller-owned buffer (matrix
targets under `inplace=True`); a torch IndexError is raised first when an
index exceeds the target length. -/
def mixupTargetsTail (cfg : MixUpCfg α) (callerInputs : List (List α))
    (origT : MixTargets α) (warned : Bool) (newInputs : List (List α))
    (T : List (List α)) (indices pairIndices : List ℕ)
    (lamDraws : List (List α)) (aliasesCaller : Bool) : MixOutcome (List α) α :=
  if indices.any (fun i => decide (T.length ≤ i)) ||
      pairIndices.any (fun i => decide (T.length ≤ i)) then
    { callerInputs := callerInputs, callerTargets := some origT, warned := warned,
      ret := .error .indexOutOfBounds }
  else
    let mixedT := scatterRows T indices ((List.range indices.length).map (fun k =>
      mixRow cfg.mode cfg.pw [targetLam cfg.featurewise (lamDraws.getD k [])]
        (T.getD (indices.getD k 0) []) (T.getD (pairIndices.getD k 0) [])))
    { callerInputs := callerInputs,
      callerTargets :=
        if cfg.inplace && aliasesCaller then some (.matrix mixedT) else some origT,
      warned := warned,
      ret := .ok (newInputs, some (.matrix mixedT)) }

/-- One-hot expansion path for label-encoded targets (line 420):
`F.one_hot` raises when a label is out of range for `nc`; the resulting
matrix is a fresh tensor and never aliases the caller buffer. -/
def mixupOneHotPath (cfg : MixUpCfg α) (callerInputs : List (List α))
    (origT : MixTargets α) (ls : List ℕ) (nc : ℕ) (warned : Bool)
    (newInputs : List (List α)) (indices pairIndices : List ℕ)
    (lamDraws : List (List α)) : MixOutcome (List α) α :=
  if ls.any (fun l => decide (nc ≤ l)) then
    { callerInputs := callerInputs, callerTargets := some origT, warned := warned,
      ret := .error .oneHotOutOfRange }
  else
    mixupTargetsTail cfg callerInputs origT warned newInputs
      (ls.map (fun l => (oneHot nc l : List α))) indices pairIndices lamDraws false

/-- Lines 391-436 of `RandomMixUp._transform`: mix the inputs at the realized
(index, partner) pairs, then dispatch on the targets.  Label-encoded targets
need a class count — the call-time argument first (with its own positivity
check), else the constructor attribute, else a RuntimeError; matrix targets
whose second dimension is 1 squeeze down to label shape and make `F.one_hot`
fail on a float tensor. -/
def mixupApply (cfg : MixUpCfg α) (inputs : List (List α))
    (targets : Option (MixTargets α)) (numClasses : Option ℕ)
    (indices pairIndices : List ℕ) (lamDraws : List (List α)) (warned : Bool) :
    MixOutcome (List α) α :=
  let n := inputs.length
  if indices.any (fun i => decide (n ≤ i)) ||
      pairIndices.any (fun i => decide (n ≤ i)) then
    { callerInputs := inputs, callerTargets := targets, warned := warned,
      ret := .error .indexOutOfBounds }
  else
    let mixedRows := (List.range indices.length).map (fun k =>
      mixRow cfg.mode cfg.pw (lamDraws.getD k [])
        (inputs.getD (indices.getD k 0) []) (inputs.getD (pairIndices.getD k 0) []))
    let newInputs := scatterRows inputs indices mixedRows
    let callerInputs := if cfg.inplace then newInputs else inputs
    match targets with
    | none =>
        { callerInputs := callerInputs, callerTargets := none, warned := warned,
          ret := .ok (newInputs, none) }
    | some t =>
      match t with
      | .labels ls =>
        match numClasses with
        | none =>
          match cfg.numClasses with
          | none =>
              { callerInputs := callerInputs, callerTargets := some t,
                warned := warned, ret := .error .missingNumClasses }
          | some nc =>
              mixupOneHotPath cfg callerInputs t ls nc warned newInputs
                indices pairIndices lamDraws
        | some nc =>
          if nc < 1 then
            { callerInputs := callerInputs, callerTargets := some t,
              warned := warned, ret := .error .badNumClasses }
          else
            mixupOneHotPath cfg callerInputs t ls nc warned newInputs
              indices pairIndices lamDraws
      | .matrix mt =>
        if (mt.getD 0 []).length = 1 then
          { callerInputs := callerInputs, callerTargets := some t,
            warned := warned, ret := .error .oneHotOnFloats }
        else
          mixupTargetsTail cfg callerInputs t warned newInputs mt
            indices pairIndices lamDraws true

/-- Mirror of `RandomMixUp._transform` (lines 283-436 of mixup.py).  A batch
of one sample or `p == 0` short-circuits to the identity.  Otherwise the
selection is realized, partners are drawn either unconstrained (offsets mod
batch size) or through the group/connectivity machinery (which drops
zero-degree rows with a warning and short-circuits to the identity when every
selected row is isolated), and the mixing is applied. -/
def mixupTransform (cfg : MixUpCfg α) (inputs : List (List α))
    (targets : Option (MixTargets α)) (groupsOrEdges : Option GroupsOrEdges)
    (crossGroup : Bool) (numClasses : Option ℕ) (d : MixDraws α) :
    MixOutcome (List α) α :=
  let n := inputs.length
  if n = 1 ∨ cfg.p = 0 then
    { callerInputs := inputs, callerTargets := targets, warned := false,
      ret := .ok (inputs, targets) }
  else
    let indices := selIndices cfg.p n d.selMask
    match groupsOrEdges with
    | none =>
        mixupApply cfg inputs targets numClasses indices
          (pairUnconstrained n indices d.offsets) d.lamDraws false
    | some g =>
      let sizeOk : Bool :=
        match g with
        | .grp gs => decide (gs.length = n)
        | .adj m => !(indices.any (fun i => decide (m.length ≤ i)))
      if !sizeOk then
        { callerInputs := inputs, callerTargets := targets, warned := false,
          ret := .error (match g with
            | .grp _ => .groupsSizeMismatch
            | .adj _ => .indexOutOfBounds) }
      else
        let conns := connectionsOf g crossGroup indices
        let gp := groupPairIndices conns indices d.relDraws
        if gp.1.length = 0 then
          { callerInputs := inputs, callerTargets := targets, warned := gp.2.2,
            ret := .ok (inputs, targets) }
        else
          mixupApply cfg inputs targets numClasses gp.1 gp.2.1 d.lamDraws gp.2.2

set_option linter.unusedVariables false in
/-- Mirror of `RandomMixUp.__call__` (lines 462-496): it forwards `inputs`,
`targets`, `groups_or_edges` and `cross_group` to `_transform` but does not
forward its own `num_classes` argument, so `_transform` runs with its default
`num_classes=None`. -/
def mixupCall (cfg : MixUpCfg α) (inputs : List (List α))
    (targets : Option (MixTargets α)) (groupsOrEdges : Option GroupsOrEdges)
    (crossGroup : Bool) (numClasses : Option ℕ) (d : MixDraws α) :
    MixOutcome (List α) α :=
  mixupTransform cfg inputs targets groupsOrEdges crossGroup none d

/-- Configuration of the legacy `kit/torch/transforms/mixup.py` transform. -/
structure KitMixUpCfg (α : Type) where
  mode : MixUpMode
  p : ℚ
  numClasses : Option ℕ
  pw : α → α → α

/-- Mirror of the legacy `RandomMixUp.transform` of
`kit/torch/transforms/mixup.py` (lines 74-117).  Note: only `p == 0` is an
identity; there is no batch-size-one guard, so `torch.randint(low=1,
high=batch_size, ...)` raises when the batch has at most one sample.  The
transform always clones the inputs, so the caller buffers are never mutated
and a plain `Except` return suffices. -/
def kitTransform (cfg : KitMixUpCfg α) (inputs : List (List α))
    (targets : Option (MixTargets α)) (selMask : List Bool) (offsets : List ℕ)
    (lamDraws : List α) :
    Except MixError (List (List α) × Option (MixTargets α)) :=
  let n := inputs.length
  if cfg.p = 0 then .ok (inputs, targets)
  else
    let indices := selIndices cfg.p n selMask
    if n ≤ 1 then .error .randintEmptyRange
    else
      let pairIndices := pairUnconstrained n indices offsets
      let mixedRows := (List.range indices.length).map (fun k =>
        mixRow cfg.mode cfg.pw [lamDraws.getD k 0]
          (inputs.getD (indices.getD k 0) []) (inputs.getD (pairIndices.getD k 0) []))
      let newInputs := scatterRows inputs indices mixedRows
      match targets with
      | none => .ok (newInputs, none)
      | some t =>
        match cfg.numClasses with
        | some nc =>
          match t with
          | .labels ls =>
            if ls.any (fun l => decide (nc ≤ l)) then .error .oneHotOutOfRange
            else
              let T := ls.map (fun l => (oneHot nc l : List α))
              if indices.any (fun i => decide (T.length ≤ i)) ||
                  pairIndices.any (fun i => decide (T.length ≤ i)) then
                .error .indexOutOfBounds
              else
                let mixedT := scatterRows T indices
                  ((List.range indices.length).map (fun k =>
                    mixRow cfg.mode cfg.pw [lamDraws.getD k 0]
                      (T.getD (indices.getD k 0) []) (T.getD (pairIndices.getD k 0) [])))
                .ok (newInputs, some (.matrix mixedT))
          | .matrix _ => .error .oneHotOnFloats
        | none => .error .missingNumClasses

/-- An image tensor of shape (C, H, W). -/
abbrev Image (α : Type) := List (List (List α))

/-- Configuration of a `RandomCutMix` instance (`cutmix.py`, `__init__`).
The Beta concentration `alpha` only parametrizes the lambda sampler, whose
realized draws enter the embedding through `CutDraws`, so it is not stored. -/
structure CutMixCfg where
  p : ℚ
  numClasses : Option ℕ
  inplace : Bool

/-- The random draws consumed by one `RandomCutMix._transform` call.  The
box extents stand for `round(sqrt(1 - lambda) * dim)` applied to the sampled
Beta lambdas (lines 109-116; the float sqrt/round chain is folded into the
draw, constrained to `[0, dim]` where theorems need it), and the start
positions stand for the `batched_randint(dim - extent)` draws of lines
118-119 (values in `{0, ..., dim - extent - 1}` per its contract). -/
structure CutDraws where
  selMask : List Bool
  extentsH : List ℕ
  extentsW : List ℕ
  startsH : List ℕ
  startsW : List ℕ

/-- Mirror of `indices.roll(1, 0)` (line 108): a cyclic shift by one, so the
partner of the k-th selected sample is the (k-1)-th selected sample. -/
def rollOne (l : List ℕ) : List ℕ :=
  l.drop (l.length - 1) ++ l.take (l.length - 1)

/-- Mirror of lines 125-128: the boolean interval mask over one spatial
dimension, inclusive at both endpoints (`end >= index` and `index >= start`). -/
def cutMask1D (s e len : ℕ) : List Bool :=
  (List.range len).map (fun i => decide (e ≥ i ∧ i ≥ s))

/-- Mirror of the outer product `masks_h.unsqueeze(1) * masks_w.unsqueeze(-1)`
(line 130): entry `(a, b)` of the 2-D mask is `first[a] && second[b]`.  Note
the source broadcasts `(num_selected, 1, H)` against `(num_selected, W, 1)`,
so the first axis of the realized mask is the W-axis and the second the
H-axis; the mask is applied to (H, W)-shaped images, which only broadcasts
when `H = W` (torch raises otherwise). -/
def cutMask2D (first second : List Bool) : List (List Bool) :=
  first.map (fun bi => second.map (fun bj => bi && bj))

/-- Count of positive entries of a 2-D boolean mask. -/
def countTrue2D (m : List (List Bool)) : ℕ :=
  (m.map (fun r => r.countP id)).sum

/-- Hard replacement of one row of pixels: `~mask * a + mask * b`. -/
def maskSelectRow (mrow : List Bool) (ar br : List α) : List α :=
  List.zipWith (fun mb pq => if mb then pq.2 else pq.1) mrow (ar.zip br)

/-- Hard replacement over one channel. -/
def maskSelectChan (mask : List (List Bool)) (ac bc : List (List α)) :
    List (List α) :=
  List.zipWith (fun mrow rs => maskSelectRow mrow rs.1 rs.2) mask (ac.zip bc)

/-- Hard replacement over a whole image, the mask broadcast across channels
(line 137: `~masks * inputs[indices] + masks * inputs[pair_indices]`). -/
def maskSelectImg (mask : List (List Bool)) (a b : Image α) : Image α :=
  List.zipWith (fun ac bc => maskSelectChan mask ac bc) a b

/-- Mirror of lines 154-156: the effective label-mixing weight recomputed
from the realized box,
`1.0 - (end_w - start_w) * (end_h - start_h) / (width * height)`. -/
def cutEffLambda (height width sH sW eH eW : ℕ) : α :=
  1 - (((eW - sW) * (eH - sH) : ℕ) : α) / ((width * height : ℕ) : α)

/-- Outcome of a `RandomCutMix` call, analogous to `MixOutcome` (CutMix
emits no warnings). -/
structure CutOutcome (α : Type) where
  callerInputs : List (Image α)
  callerTargets : Option (MixTargets α)
  ret : Except MixError (List (Image α) × Option (MixTargets α))
  deriving DecidableEq

/-- Mirror of `RandomCutMix._transform` (lines 81-161 of cutmix.py).  The
targets size check precedes the identity short-circuit; the pair map is a
roll of the selected indices; pixel replacement is a hard mask select; and
the target update is the literal pair of in-place statements
`targets[indices] *= target_lambdas` followed by
`targets[indices] += targets[pair_indices] * (1.0 - target_lambdas)`, whose
second statement reads the rows already scaled by the first. -/
def cutmixTransform (cfg : CutMixCfg) (inputs : List (Image α))
    (targets : Option (MixTargets α)) (d : CutDraws) : CutOutcome α :=
  let n := inputs.length
  if (match targets with | some t => decide (t.len ≠ n) | none => false) then
    { callerInputs := inputs, callerTargets := targets,
      ret := .error .targetsSizeMismatch }
  else if n = 1 ∨ cfg.p = 0 then
    { callerInputs := inputs, callerTargets := targets,
      ret := .ok (inputs, targets) }
  else
    let indices := selIndices cfg.p n d.selMask
    let pairIndices := rollOne indices
    let height := ((inputs.getD 0 []).getD 0 []).length
    let width := (((inputs.getD 0 []).getD 0 []).getD 0 []).length
    if height ≠ width then
      { callerInputs := inputs, callerTargets := targets,
        ret := .error .broadcastMismatch }
    else
      let endH := fun (k : ℕ) => d.startsH.getD k 0 + d.extentsH.getD k 0
      let endW := fun (k : ℕ) => d.startsW.getD k 0 + d.extentsW.getD k 0
      let maskOf := fun (k : ℕ) =>
        cutMask2D (cutMask1D (d.startsW.getD k 0) (endW k) width)
          (cutMask1D (d.startsH.getD k 0) (endH k) height)
      let newRows := (List.range indices.length).map (fun k =>
        maskSelectImg (maskOf k) (inputs.getD (indices.getD k 0) [])
          (inputs.getD (pairIndices.getD k 0) []))
      let newInputs := scatterRows inputs indices newRows
      let callerInputs := if cfg.inplace then newInputs else inputs
      match targets with
      | none =>
          { callerInputs := callerInputs, callerTargets := none,
            ret := .ok (newInputs, none) }
      | some t =>
        let tgtGo := fun (T : List (List α)) (aliasesCaller : Bool) =>
          let eff := fun (k : ℕ) =>
            (cutEffLambda height width (d.startsH.getD k 0) (d.startsW.getD k 0)
              (endH k) (endW k) : α)
          let T1 := scatterRows T indices ((List.range indices.length).map (fun k =>
            (T.getD (indices.getD k 0) []).map (fun x => x * eff k)))
          let T2 := scatterRows T1 indices ((List.range indices.length).map (fun k =>
            List.zipWith (fun x y => x + y) (T1.getD (indices.getD k 0) [])
              ((T1.getD (pairIndices.getD k 0) []).map (fun x => x * (1 - eff k)))))
          { callerInputs := callerInputs,
            callerTargets :=
              if cfg.inplace && aliasesCaller then some (.matrix T2) else some t,
            ret := (.ok (newInputs, some (.matrix T2)) :
              Except MixError (List (Image α) × Option (MixTargets α))) }
        match t with
        | .labels ls =>
          match cfg.numClasses with
          | none =>
              { callerInputs := callerInputs, callerTargets := some t,
                ret := .error .missingNumClasses }
          | some nc =>
            if ls.any (fun l => decide (nc ≤ l)) then
              { callerInputs := callerInputs, callerTargets := some t,
                ret := .error .oneHotOutOfRange }
            else
              tgtGo (ls.map (fun l => (oneHot nc l : List α))) false
        | .matrix mt =>
          if (mt.getD 0 []).length = 1 then
            { callerInputs := callerInputs, callerTargets := some t,
              ret := .error .oneHotOnFloats }
          else
            tgtGo mt true

/-! ### Helper lemmas -/

lemma getD_mem_of_lt {β : Type} {l : List β} {i : ℕ} (dflt : β)
    (h : i < l.length) : l.getD i dflt ∈ l := by
  rw [List.getD_eq_getElem l dflt h]
  exact List.getElem_mem h

lemma selIndices_mem_lt {p : ℚ} {n : ℕ} {mask : List Bool} :
    ∀ i ∈ selIndices p n mask, i < n := by
  intro i hi
  unfold selIndices at hi
  split at hi
  · exact List.mem_range.mp (List.mem_of_mem_filter hi)
  · exact List.mem_range.mp hi

lemma pairOf_lt {n : ℕ} (i o : ℕ) (h : 0 < n) : pairOf n i o < n :=
  Nat.mod_lt _ h

lemma pairUnconstrained_mem_lt {n : ℕ} {ind off : List ℕ} (h : 0 < n) :
    ∀ j ∈ pairUnconstrained n ind off, j < n := by
  intro j hj
  unfold pairUnconstrained at hj
  obtain ⟨io, _, rfl⟩ := List.mem_map.mp hj
  exact pairOf_lt _ _ h

lemma any_ge_eq_false {l : List ℕ} {n : ℕ} (h : ∀ i ∈ l, i < n) :
    (l.any fun i => decide (n ≤ i)) = false := by
  rw [List.any_eq_false]
  intro i hi
  simpa using h i hi

lemma foldl_set_forall {β : Type} (P : β → Prop) :
    ∀ (l : List (ℕ × β)) (buf : List β), (∀ r ∈ buf, P r) → (∀ iv ∈ l, P iv.2) →
      ∀ r ∈ l.foldl (fun b iv => b.set iv.1 iv.2) buf, P r := by
  intro l
  induction l with
  | nil => exact fun buf hb _ r hr => hb r hr
  | cons iv tl ih =>
      intro buf hb hl r hr
      refine ih _ ?_ (fun jv hjv => hl jv (List.mem_cons_of_mem _ hjv)) r hr
      intro s hs
      rcases List.mem_or_eq_of_mem_set hs with h | h
      · exact hb s h
      · exact h ▸ hl iv (List.mem_cons_self _ _)

lemma scatterRows_forall {β : Type} (P : β → Prop) (buf : List β)
    (idxs : List ℕ) (vals : List β) (hb : ∀ r ∈ buf, P r)
    (hv : ∀ r ∈ vals, P r) : ∀ r ∈ scatterRows buf idxs vals, P r := by
  refine foldl_set_forall P _ buf hb ?_
  intro iv hiv
  exact hv iv.2 (List.of_mem_zip hiv).2

lemma foldl_set_getElem?_not_mem {β : Type} :
    ∀ (l : List (ℕ × β)) (buf : List β) (i : ℕ), (∀ iv ∈ l, iv.1 ≠ i) →
      (l.foldl (fun b iv => b.set iv.1 iv.2) buf)[i]? = buf[i]? := by
  intro l
  induction l with
  | nil => intro buf i _; rfl
  | cons iv tl ih =>
      intro buf i h
      rw [List.foldl_cons, ih _ _ (fun jv hjv => h jv (List.mem_cons_of_mem _ hjv)),
        List.getElem?_set_ne (h iv (List.mem_cons_self _ _))]

lemma scatterRows_getD_not_mem {β : Type} (buf : List β) (idxs : List ℕ)
    (vals : List β) (i : ℕ) (dflt : β) (h : i ∉ idxs) :
    (scatterRows buf idxs vals).getD i dflt = buf.getD i dflt := by
  have hz : ∀ iv ∈ idxs.zip vals, iv.1 ≠ i := by
    intro iv hiv he
    exact h (he ▸ (List.of_mem_zip hiv).1)
  unfold scatterRows
  rw [List.getD_eq_getElem?_getD, List.getD_eq_getElem?_getD,
    foldl_set_getElem?_not_mem (idxs.zip vals) buf i hz]

lemma broadcastLam_singleton (l : α) (len : ℕ) :
    broadcastLam [l] len = List.replicate len l := by
  simp [broadcastLam]

lemma zipWith_replicate_zip {β : Type} (f : α → α × α → β) (c : α) :
    ∀ (a b : List α),
      List.zipWith f (List.replicate a.length c) (a.zip b)
        = List.zipWith (fun x y => f c (x, y)) a b := by
  intro a
  induction a with
  | nil => intro b; simp
  | cons x xs ih =>
      intro b
      cases b with
      | nil => simp
      | cons y ys =>
          rw [List.zip_cons_cons, List.length_cons, List.replicate_succ c,
            List.zipWith_cons_cons, List.zipWith_cons_cons, ih ys]

lemma mixRow_singleton {mode : MixUpMode} {pw : α → α → α} (l : α)
    (a b : List α) :
    mixRow mode pw [l] a b
      = List.zipWith (fun x y => mixElem mode pw l x y) a b := by
  unfold mixRow
  rw [broadcastLam_singleton,
    zipWith_replicate_zip (fun lam xy => mixElem mode pw lam xy.1 xy.2) l a b]

omit [Inhabited α] in
lemma sum_zipWith_linear (l : α) :
    ∀ (a b : List α), a.length = b.length →
      (List.zipWith (fun x y => l * x + (1 - l) * y) a b).sum
        = l * a.sum + (1 - l) * b.sum := by
  intro a
  induction a with
  | nil =>
      intro b h
      cases b with
      | nil => simp
      | cons y ys => simp at h
  | cons x xs ih =>
      intro b h
      cases b with
      | nil => simp at h
      | cons y ys =>
          rw [List.zipWith_cons_cons, List.sum_cons, List.sum_cons,
            List.sum_cons, ih ys (by simpa using h)]
          ring

lemma mixRow_linear_sum (pw : α → α → α) (l : α) (a b : List α)
    (ha : a.sum = 1) (hb : b.sum = 1) (hlen : a.length = b.length) :
    (mixRow MixUpMode.linear pw [l] a b).sum = 1 := by
  rw [mixRow_singleton]
  have he : (fun x y => mixElem MixUpMode.linear pw l x y)
      = fun x y => l * x + (1 - l) * y := by
    funext x y
    simp [mixElem]
  rw [he, sum_zipWith_linear l a b hlen, ha, hb]
  ring

omit [Inhabited α] in
lemma sum_indicator_range (m l : ℕ) :
    ((List.range m).map (fun j => if j = l then (1 : α) else 0)).sum
      = if l < m then 1 else 0 := by
  induction m with
  | zero => simp
  | succ k ih =>
      rw [List.range_succ, List.map_append, List.sum_append, ih]
      by_cases h1 : l < k
      · have h2 : k ≠ l := by omega
        simp [h1, h2, show l < k + 1 by omega]
      · by_cases h3 : k = l
        · have h4 : l < k + 1 := by omega
          simp [h1, h3, h4]
        · have h4 : ¬ l < k + 1 := by omega
          simp [h1, h3, h4]

lemma oneHot_sum {nc l : ℕ} (h : l < nc) : (oneHot nc l : List α).sum = 1 := by
  unfold oneHot
  rw [sum_indicator_range]
  simp [h]

omit [Inhabited α] in
lemma oneHot_length (nc l : ℕ) : (oneHot nc l : List α).length = nc := by
  simp [oneHot]


lemma countP_range_ge (s : ℕ) : ∀ m, (List.range m).countP (fun i => decide (i ≥ s)) = m - s := by
  intro m
  induction m with
  | zero => simp
  | succ k ih =>
      rw [List.range_succ, List.countP_append, ih, List.countP_cons]
      by_cases h : s ≤ k
      · simp [h]; omega
      · simp [h]; omega

lemma countP_range_le_all (s e : ℕ) : ∀ m, m ≤ e + 1 →
    (List.range m).countP (fun i => decide (e ≥ i ∧ i ≥ s)) = m - s := by
  intro m
  induction m with
  | zero => simp
  | succ k ih =>
      intro hm
      rw [List.range_succ, List.countP_append, ih (by omega), List.countP_cons]
      by_cases h : s ≤ k
      · simp [h, show k ≤ e by omega]; omega
      · simp [h]; omega

lemma countP_interval (s e : ℕ) : ∀ H, e < H →
    (List.range H).countP (fun i => decide (e ≥ i ∧ i ≥ s)) = e + 1 - s := by
  intro H
  induction H with
  | zero => omega
  | succ m ih =>
      intro he
      rw [List.range_succ, List.countP_append, List.countP_cons, List.countP_nil]
      by_cases hm : e < m
      · rw [ih hm]
        have hlast : decide (e ≥ m ∧ m ≥ s) = false := by
          simp only [decide_eq_false_iff_not]
          omega
        rw [hlast]
        simp
      · have hem : e = m := by omega
        subst hem
        rw [countP_range_le_all s e e (by omega)]
        by_cases h : s ≤ e
        · simp [h]
          omega
        · simp [h]
          omega

lemma countTrue2D_prod (mw mh : List Bool) :
    countTrue2D (cutMask2D mw mh) = mw.countP id * mh.countP id := by
  unfold countTrue2D cutMask2D
  induction mw with
  | nil => simp
  | cons b bs ih =>
      rw [List.map_cons, List.map_cons, List.sum_cons, ih]
      have hrow : (mh.map (fun bj => b && bj)).countP id
          = if b then mh.countP id else 0 := by
        cases b
        · simp [List.countP_map]
        · simp [List.countP_map]
      rw [hrow]
      cases b
      · simp [List.countP_cons]
      · simp [List.countP_cons]
        ring

lemma cutMask1D_countP (s e len : ℕ) (h : e < len) :
    (cutMask1D s e len).countP id = e + 1 - s := by
  unfold cutMask1D
  rw [List.countP_map]
  have : (id ∘ fun i => decide (e ≥ i ∧ i ≥ s)) = fun i => decide (e ≥ i ∧ i ≥ s) := rfl
  rw [this, countP_interval s e len h]

lemma pairOf_eq_if {N i o : ℕ} (hi : i < N) (ho : o < N) :
    pairOf N i o = if i + o < N then i + o else i + o - N := by
  unfold pairOf
  split
  · exact Nat.mod_eq_of_lt (by assumption)
  · have h1 : N ≤ i + o := by omega
    have h2 : i + o - N < N := by omega
    rw [Nat.mod_eq_sub_mod h1, Nat.mod_eq_of_lt h2]

lemma mixup_missing_classes_core (cfg : MixUpCfg α) (inputs : List (List α))
    (ls : List ℕ) (cg : Bool) (d : MixDraws α)
    (hn : 1 < inputs.length) (hp : cfg.p ≠ 0) (hcfg : cfg.numClasses = none) :
    (mixupTransform cfg inputs (some (.labels ls)) none cg none d).ret
        = .error .missingNumClasses
    ∧ (mixupTransform cfg inputs (some (.labels ls)) none cg none d).callerTargets
        = some (.labels ls)
    ∧ (cfg.inplace = false →
        (mixupTransform cfg inputs (some (.labels ls)) none cg none d).callerInputs
          = inputs) := by
  have hcond : ¬ (inputs.length = 1 ∨ cfg.p = 0) := by
    push_neg
    exact ⟨by omega, hp⟩
  have hsel : (selIndices cfg.p inputs.length d.selMask).any
      (fun i => decide (inputs.length ≤ i)) = false :=
    any_ge_eq_false selIndices_mem_lt
  have hpair : (pairUnconstrained inputs.length
      (selIndices cfg.p inputs.length d.selMask) d.offsets).any
      (fun i => decide (inputs.length ≤ i)) = false :=
    any_ge_eq_false (pairUnconstrained_mem_lt (by omega))
  simp only [mixupTransform, hcond, if_false, mixupApply, hsel, hpair,
    Bool.or_self, Bool.false_eq_true, hcfg]
  refine ⟨trivial, trivial, fun hip => ?_⟩
  simp [hip]


lemma mixupTargetsTail_frame (cfg : MixUpCfg α) (ci : List (List α))
    (oT : MixTargets α) (w : Bool) (nI : List (List α)) (T : List (List α))
    (idx pidx : List ℕ) (ld : List (List α)) (ac : Bool)
    (hip : cfg.inplace = false) :
    (mixupTargetsTail cfg ci oT w nI T idx pidx ld ac).callerInputs = ci
    ∧ (mixupTargetsTail cfg ci oT w nI T idx pidx ld ac).callerTargets
        = some oT := by
  unfold mixupTargetsTail
  split <;> simp [hip]

lemma mixupOneHotPath_frame (cfg : MixUpCfg α) (ci : List (List α))
    (oT : MixTargets α) (ls : List ℕ) (nc : ℕ) (w : Bool)
    (nI : List (List α)) (idx pidx : List ℕ) (ld : List (List α))
    (hip : cfg.inplace = false) :
    (mixupOneHotPath cfg ci oT ls nc w nI idx pidx ld).callerInputs = ci
    ∧ (mixupOneHotPath cfg ci oT ls nc w nI idx pidx ld).callerTargets
        = some oT := by
  unfold mixupOneHotPath
  split
  · simp
  · exact mixupTargetsTail_frame cfg ci oT w nI _ idx pidx ld false hip

lemma mixupApply_frame (cfg : MixUpCfg α) (inputs : List (List α))
    (targets : Option (MixTargets α)) (nc : Option ℕ) (idx pidx : List ℕ)
    (ld : List (List α)) (w : Bool) (hip : cfg.inplace = false) :
    (mixupApply cfg inputs targets nc idx pidx ld w).callerInputs = inputs
    ∧ (mixupApply cfg inputs targets nc idx pidx ld w).callerTargets
        = targets := by
  rcases targets with _ | t
  · simp only [mixupApply, hip, Bool.false_eq_true, if_false]
    split <;> simp
  · rcases t with ls | mt
    · rcases nc with _ | nc2
      · rcases hc : cfg.numClasses with _ | nc3
        · simp only [mixupApply, hip, Bool.false_eq_true, if_false, hc]
          split <;> simp
        · simp only [mixupApply, hip, Bool.false_eq_true, if_false, hc]
          split
          · simp
          · exact mixupOneHotPath_frame cfg inputs _ ls nc3 w _ idx pidx ld hip
      · simp only [mixupApply, hip, Bool.false_eq_true, if_false]
        split
        · simp
        · split
          · simp
          · exact mixupOneHotPath_frame cfg inputs _ ls nc2 w _ idx pidx ld hip
    · simp only [mixupApply, hip, Bool.false_eq_true, if_false]
      split
      · simp
      · split
        · simp
        · exact mixupTargetsTail_frame cfg inputs _ w _ mt idx pidx ld true hip

lemma mixupTransform_frame (cfg : MixUpCfg α) (inputs : List (List α))
    (targets : Option (MixTargets α)) (g : Option GroupsOrEdges) (cg : Bool)
    (nc : Option ℕ) (d : MixDraws α) (hip : cfg.inplace = false) :
    (mixupTransform cfg inputs targets g cg nc d).callerInputs = inputs
    ∧ (mixupTransform cfg inputs targets g cg nc d).callerTargets = targets := by
  rcases g with _ | g
  · simp only [mixupTransform]
    split
    · simp
    · exact mixupApply_frame cfg inputs targets nc _ _ d.lamDraws false hip
  · simp only [mixupTransform]
    split
    · simp
    · split
      · simp
      · split
        · simp
        · exact mixupApply_frame cfg inputs targets nc _ _ d.lamDraws _ hip

lemma cutmixTransform_frame (cfg : CutMixCfg) (inputs : List (Image α))
    (targets : Option (MixTargets α)) (d : CutDraws)
    (hip : cfg.inplace = false) :
    (cutmixTransform cfg inputs targets d).callerInputs = inputs
    ∧ (cutmixTransform cfg inputs targets d).callerTargets = targets := by
  rcases targets with _ | t
  · simp only [cutmixTransform, hip, Bool.false_eq_true, if_false, Bool.false_and]
    split
    · simp
    · split <;> simp
  · rcases t with ls | mt
    · rcases hc : cfg.numClasses with _ | nc2
      · simp only [cutmixTransform, hip, Bool.false_eq_true, if_false,
          Bool.false_and, hc]
        split
        · simp
        · split
          · simp
          · split <;> simp
      · simp only [cutmixTransform, hip, Bool.false_eq_true, if_false,
          Bool.false_and, hc]
        split
        · simp
        · split
          · simp
          · split
            · simp
            · split <;> simp
    · simp only [cutmixTransform, hip, Bool.false_eq_true, if_false,
        Bool.false_and]
      split
      · simp
      · split
        · simp
        · split
          · simp
          · split <;> simp

lemma fillDiagFalse_length (m : List (List Bool)) :
    (fillDiagFalse m).length = m.length := by
  simp [fillDiagFalse]

lemma fillDiagFalse_row_length (m : List (List Bool)) (P : ℕ → Prop)
    (h : ∀ r ∈ m, P r.length) : ∀ r ∈ fillDiagFalse m, P r.length := by
  intro r hr
  unfold fillDiagFalse at hr
  obtain ⟨kr, hkr, rfl⟩ := List.mem_map.mp hr
  rw [List.length_set]
  exact h kr.2 (List.of_mem_zip hkr).2

lemma connectionsOf_grp_row (gs : List ℕ) (cg : Bool) (idx : List ℕ) :
    ∀ row ∈ connectionsOf (.grp gs) cg idx, row.length = gs.length := by
  intro row hrow
  cases cg
  · simp only [connectionsOf, Bool.false_eq_true, if_false] at hrow
    refine fillDiagFalse_row_length _ (fun len => len = gs.length) ?_ row hrow
    intro r hr
    obtain ⟨i, _, rfl⟩ := List.mem_map.mp hr
    simp
  · simp only [connectionsOf, if_true] at hrow
    obtain ⟨i, _, rfl⟩ := List.mem_map.mp hrow
    simp


lemma connectionsOf_adj_row (m : List (List Bool)) (cg : Bool) (idx : List ℕ)
    (n : ℕ) (hidx : ∀ i ∈ idx, i < m.length)
    (hrows : ∀ r ∈ m, r.length ≤ n) :
    ∀ row ∈ connectionsOf (.adj m) cg idx, row.length ≤ n := by
  intro row hrow
  simp only [connectionsOf] at hrow
  refine fillDiagFalse_row_length _ (fun len => len ≤ n) ?_ row hrow
  intro r hr
  obtain ⟨i, hi, rfl⟩ := List.mem_map.mp hr
  exact hrows _ (getD_mem_of_lt [] (hidx i hi))

lemma connectionsOf_length (g : GroupsOrEdges) (cg : Bool) (idx : List ℕ) :
    (connectionsOf g cg idx).length = idx.length := by
  rcases g with gs | m
  · cases cg
    · simp only [connectionsOf, Bool.false_eq_true, if_false]
      simp [fillDiagFalse_length]
    · simp only [connectionsOf, if_true]
      simp
  · simp [connectionsOf, fillDiagFalse_length]

lemma trueCols_mem_lt (row : List Bool) : ∀ j ∈ trueCols row, j < row.length := by
  intro j hj
  exact List.mem_range.mp (List.mem_of_mem_filter hj)

lemma absPosInds_mem_lt {conns : List (List Bool)} {n : ℕ}
    (h : ∀ row ∈ conns, row.length ≤ n) : ∀ j ∈ absPosInds conns, j < n := by
  intro j hj
  unfold absPosInds at hj
  rw [List.mem_flatten] at hj
  obtain ⟨cols, hcols, hjc⟩ := hj
  obtain ⟨row, hrow, rfl⟩ := List.mem_map.mp hcols
  exact lt_of_lt_of_le (trueCols_mem_lt row j hjc) (h row hrow)

lemma filterConnected_conns_subset (idx degs : List ℕ)
    (conns : List (List Bool)) :
    ∀ row ∈ (filterConnected idx degs conns).2.2, row ∈ conns := by
  intro row hrow
  unfold filterConnected at hrow
  obtain ⟨t, ht, rfl⟩ := List.mem_map.mp hrow
  exact (List.of_mem_zip (List.of_mem_zip (List.mem_of_mem_filter ht)).2).2

lemma filterConnected_fst_subset (idx degs : List ℕ)
    (conns : List (List Bool)) :
    ∀ i ∈ (filterConnected idx degs conns).1, i ∈ idx := by
  intro i hi
  unfold filterConnected at hi
  obtain ⟨t, ht, rfl⟩ := List.mem_map.mp hi
  exact (List.of_mem_zip (List.mem_of_mem_filter ht)).1

lemma groupPairIndices_pair_lt {conns : List (List Bool)} {n : ℕ}
    (idx rel : List ℕ) (hrows : ∀ row ∈ conns, row.length ≤ n) (hn : 0 < n) :
    ∀ j ∈ (groupPairIndices conns idx rel).2.1, j < n := by
  intro j hj
  unfold groupPairIndices at hj
  simp only at hj
  obtain ⟨t, _, rfl⟩ := List.mem_map.mp hj
  by_cases ht : t < (absPosInds (filterConnected idx (degreesOf conns) conns).2.2).length
  · refine absPosInds_mem_lt ?_ _ (getD_mem_of_lt 0 ht)
    intro row hrow
    exact hrows row (filterConnected_conns_subset idx (degreesOf conns) conns row hrow)
  · rw [List.getD_eq_default _ _ (by omega)]
    exact hn

lemma groupPairIndices_fst_subset (conns : List (List Bool))
    (idx rel : List ℕ) :
    ∀ i ∈ (groupPairIndices conns idx rel).1, i ∈ idx := by
  intro i hi
  unfold groupPairIndices at hi
  simp only at hi
  exact filterConnected_fst_subset idx (degreesOf conns) conns i hi

lemma selIndices_p_one (n : ℕ) (mask : List Bool) :
    selIndices 1 n mask = List.range n := by
  simp [selIndices]


lemma filterConnected_not_mem_zero (conns : List (List Bool)) (n k : ℕ)
    (hlen : conns.length = n) (hk : k < n)
    (h0 : (degreesOf conns).getD k 0 = 0) :
    k ∉ (filterConnected (List.range n) (degreesOf conns) conns).1 := by
  intro hk_mem
  have hdeg_len : (degreesOf conns).length = n := by simp [degreesOf, hlen]
  unfold filterConnected at hk_mem
  simp only at hk_mem
  obtain ⟨t, ht, ht1⟩ := List.mem_map.mp hk_mem
  rw [List.mem_filter] at ht
  obtain ⟨htz, hne⟩ := ht
  obtain ⟨pos, hpos, heq⟩ := List.mem_iff_getElem.mp htz
  have hpos' : pos < n := by
    simp only [List.length_zip, List.length_range, hdeg_len, hlen] at hpos
    omega
  rw [List.getElem_zip] at heq
  cases heq
  simp only [List.getElem_range] at ht1
  subst ht1
  rw [List.getElem_zip] at hne
  simp only [decide_eq_true_eq] at hne
  rw [List.getD_eq_getElem _ _ (by omega)] at h0
  exact hne h0

lemma filterConnected_length_lt (conns : List (List Bool)) (n k : ℕ)
    (hlen : conns.length = n) (hk : k < n)
    (h0 : (degreesOf conns).getD k 0 = 0) :
    (filterConnected (List.range n) (degreesOf conns) conns).1.length
      < (degreesOf conns).length := by
  have hdeg_len : (degreesOf conns).length = n := by simp [degreesOf, hlen]
  unfold filterConnected
  simp only [List.length_map]
  have hzlen : ((List.range n).zip ((degreesOf conns).zip conns)).length = n := by
    simp [List.length_zip, hdeg_len, hlen]
  rw [hdeg_len]
  refine lt_of_lt_of_le (List.length_filter_lt_length_iff_exists.mpr ?_)
    (le_of_eq hzlen)
  have hkz : k < ((List.range n).zip ((degreesOf conns).zip conns)).length := by
    omega
  refine ⟨((List.range n).zip ((degreesOf conns).zip conns))[k], List.getElem_mem hkz, ?_⟩
  rw [List.getElem_zip, List.getElem_zip]
  rw [List.getD_eq_getElem _ _ (by omega)] at h0
  simp [h0]

lemma mixupApply_none_proj (cfg : MixUpCfg α) (inputs : List (List α))
    (nc : Option ℕ) (idx pidx : List ℕ) (ld : List (List α)) (w : Bool)
    (hidx : ∀ i ∈ idx, i < inputs.length)
    (hpidx : ∀ i ∈ pidx, i < inputs.length) :
    (mixupApply cfg inputs none nc idx pidx ld w).ret
      = .ok (scatterRows inputs idx ((List.range idx.length).map (fun k =>
          mixRow cfg.mode cfg.pw (ld.getD k [])
            (inputs.getD (idx.getD k 0) []) (inputs.getD (pidx.getD k 0) []))),
          none)
    ∧ (mixupApply cfg inputs none nc idx pidx ld w).warned = w := by
  simp only [mixupApply, any_ge_eq_false hidx, any_ge_eq_false hpidx,
    Bool.or_self, Bool.false_eq_true, if_false]
  refine ⟨?_, ?_⟩ <;> trivial


lemma groupPairIndices_fst (conns : List (List Bool)) (idx rel : List ℕ) :
    (groupPairIndices conns idx rel).1
      = (filterConnected idx (degreesOf conns) conns).1 := rfl

lemma groupPairIndices_warned (conns : List (List Bool)) (idx rel : List ℕ) :
    (groupPairIndices conns idx rel).2.2
      = decide ((filterConnected idx (degreesOf conns) conns).1.length
          < (degreesOf conns).length) := rfl

lemma lenient_tail (cfg : MixUpCfg α) (inputs : List (List α)) (nc : Option ℕ)
    (d : MixDraws α) (conns : List (List Bool)) (hn : 1 < inputs.length)
    (hlen : conns.length = inputs.length)
    (hrow : ∀ row ∈ conns, row.length ≤ inputs.length) :
    (∃ I2, (if (groupPairIndices conns (List.range inputs.length) d.relDraws).1.length = 0 then
          ({ callerInputs := inputs, callerTargets := none,
             warned := (groupPairIndices conns (List.range inputs.length) d.relDraws).2.2,
             ret := .ok (inputs, none) } : MixOutcome (List α) α)
        else mixupApply cfg inputs none nc
          (groupPairIndices conns (List.range inputs.length) d.relDraws).1
          (groupPairIndices conns (List.range inputs.length) d.relDraws).2.1
          d.lamDraws
          (groupPairIndices conns (List.range inputs.length) d.relDraws).2.2).ret
        = .ok (I2, none)
      ∧ ∀ k < inputs.length, (degreesOf conns).getD k 0 = 0 →
          I2.getD k [] = inputs.getD k [])
    ∧ ((∃ k, k < inputs.length ∧ (degreesOf conns).getD k 0 = 0) →
        (if (groupPairIndices conns (List.range inputs.length) d.relDraws).1.length = 0 then
          ({ callerInputs := inputs, callerTargets := none,
             warned := (groupPairIndices conns (List.range inputs.length) d.relDraws).2.2,
             ret := .ok (inputs, none) } : MixOutcome (List α) α)
        else mixupApply cfg inputs none nc
          (groupPairIndices conns (List.range inputs.length) d.relDraws).1
          (groupPairIndices conns (List.range inputs.length) d.relDraws).2.1
          d.lamDraws
          (groupPairIndices conns (List.range inputs.length) d.relDraws).2.2).warned
        = true) := by
  have hidx : ∀ i ∈ (groupPairIndices conns (List.range inputs.length) d.relDraws).1,
      i < inputs.length := fun i hi =>
    List.mem_range.mp (groupPairIndices_fst_subset conns _ d.relDraws i hi)
  have hpidx : ∀ j ∈ (groupPairIndices conns (List.range inputs.length) d.relDraws).2.1,
      j < inputs.length :=
    groupPairIndices_pair_lt _ d.relDraws hrow (by omega)
  have hwarn : (∃ k, k < inputs.length ∧ (degreesOf conns).getD k 0 = 0) →
      (groupPairIndices conns (List.range inputs.length) d.relDraws).2.2 = true := by
    rintro ⟨k, hk, h0⟩
    rw [groupPairIndices_warned]
    simp only [decide_eq_true_eq]
    exact filterConnected_length_lt conns inputs.length k hlen hk h0
  split
  · exact ⟨⟨inputs, rfl, fun k hk h0 => rfl⟩, hwarn⟩
  · obtain ⟨hret, hw⟩ := mixupApply_none_proj cfg inputs nc _ _ d.lamDraws _ hidx hpidx
    refine ⟨⟨_, hret, ?_⟩, fun hex => by rw [hw]; exact hwarn hex⟩
    intro k hk h0
    refine scatterRows_getD_not_mem inputs _ _ k [] ?_
    rw [groupPairIndices_fst]
    exact filterConnected_not_mem_zero conns inputs.length k hlen hk h0

lemma mixupTargetsTail_row_sums (cfg : MixUpCfg α) (ci : List (List α))
    (oT : MixTargets α) (w : Bool) (nI T : List (List α)) (idx pidx : List ℕ)
    (ld : List (List α)) (ac : Bool) (c : ℕ) (I2 T2 : List (List α))
    (hmode : cfg.mode = MixUpMode.linear)
    (hsum : ∀ row ∈ T, row.sum = 1) (hlenr : ∀ row ∈ T, row.length = c)
    (hret : (mixupTargetsTail cfg ci oT w nI T idx pidx ld ac).ret
        = .ok (I2, some (.matrix T2))) :
    ∀ row ∈ T2, row.sum = 1 := by
  unfold mixupTargetsTail at hret
  split at hret
  · simp at hret
  · rename_i hb
    simp only [Bool.or_eq_true, List.any_eq_true, decide_eq_true_eq] at hb
    push_neg at hb
    obtain ⟨hbi, hbp⟩ := hb
    simp only [Except.ok.injEq, Prod.mk.injEq, Option.some.injEq,
      MixTargets.matrix.injEq] at hret
    obtain ⟨-, hT2⟩ := hret
    subst hT2
    refine scatterRows_forall (fun row => row.sum = 1) T idx _ hsum ?_
    intro v hv
    obtain ⟨k, hk, rfl⟩ := List.mem_map.mp hv
    have hk' : k < idx.length := List.mem_range.mp hk
    have hidxk : idx.getD k 0 < T.length := hbi _ (getD_mem_of_lt 0 hk')
    have hTpos : 0 < T.length := by omega
    have hpidxk : pidx.getD k 0 < T.length := by
      by_cases hkp : k < pidx.length
      · exact hbp _ (getD_mem_of_lt 0 hkp)
      · rw [List.getD_eq_default _ _ (by omega)]
        exact hTpos
    have hA := getD_mem_of_lt ([] : List α) hidxk
    have hB := getD_mem_of_lt ([] : List α) hpidxk
    rw [hmode]
    exact mixRow_linear_sum cfg.pw _ _ _ (hsum _ hA) (hsum _ hB)
      (by rw [hlenr _ hA, hlenr _ hB])

lemma mixupOneHotPath_row_sums (cfg : MixUpCfg α) (ci : List (List α))
    (oT : MixTargets α) (ls : List ℕ) (nc : ℕ) (w : Bool)
    (nI : List (List α)) (idx pidx : List ℕ) (ld : List (List α))
    (I2 T2 : List (List α)) (hmode : cfg.mode = MixUpMode.linear)
    (hret : (mixupOneHotPath cfg ci oT ls nc w nI idx pidx ld).ret
        = .ok (I2, some (.matrix T2))) :
    ∀ row ∈ T2, row.sum = 1 := by
  unfold mixupOneHotPath at hret
  split at hret
  · simp at hret
  · rename_i hb
    simp only [List.any_eq_true, decide_eq_true_eq] at hb
    push_neg at hb
    refine mixupTargetsTail_row_sums cfg ci oT w nI _ idx pidx ld false nc I2 T2
      hmode ?_ ?_ hret
    · intro row hrow
      obtain ⟨l, hl, rfl⟩ := List.mem_map.mp hrow
      exact oneHot_sum (hb l hl)
    · intro row hrow
      obtain ⟨l, hl, rfl⟩ := List.mem_map.mp hrow
      exact oneHot_length nc l

lemma mixupApply_row_sums (cfg : MixUpCfg α) (inputs : List (List α))
    (t : MixTargets α) (nc : Option ℕ) (idx pidx : List ℕ)
    (ld : List (List α)) (w : Bool) (I2 T2 : List (List α))
    (hmode : cfg.mode = MixUpMode.linear)
    (hmt : match t with
      | .labels _ => True
      | .matrix mt => (∀ row ∈ mt, row.sum = 1)
          ∧ ∃ c, ∀ row ∈ mt, row.length = c)
    (hret : (mixupApply cfg inputs (some t) nc idx pidx ld w).ret
        = .ok (I2, some (.matrix T2))) :
    ∀ row ∈ T2, row.sum = 1 := by
  rcases t with ls | mt
  · rcases nc with _ | nc2
    · rcases hc : cfg.numClasses with _ | nc3
      · simp only [mixupApply, hc] at hret
        split at hret
        · simp at hret
        · simp at hret
      · simp only [mixupApply, hc] at hret
        split at hret
        · simp at hret
        · exact mixupOneHotPath_row_sums cfg _ _ ls nc3 w _ idx pidx ld I2 T2
            hmode hret
    · simp only [mixupApply] at hret
      split at hret
      · simp at hret
      · split at hret
        · simp at hret
        · exact mixupOneHotPath_row_sums cfg _ _ ls nc2 w _ idx pidx ld I2 T2
            hmode hret
  · simp only [mixupApply] at hret
    split at hret
    · simp at hret
    · split at hret
      · simp at hret
      · obtain ⟨hsum, c, hlenr⟩ := hmt
        exact mixupTargetsTail_row_sums cfg _ _ w _ mt idx pidx ld true c I2 T2
          hmode hsum hlenr hret

/-! ### Claim theorems -/

/-- Claim C1 (code bug): the no-self-pair invariant fails.  With a batch of
two samples in the same group, within-group pairing, and a Bernoulli
selection that picks only sample 1 (probability `p = 1/2`), the realized
connectivity row keeps the self column: `fill_diagonal_(False)` clears
position `(0, 0)` of the `[num_selected, batch_size]` matrix instead of
position `(0, indices[0]) = (0, 1)`, so sample 1 has degree 1 with its sole
candidate being itself, and the realized pair map sends 1 to 1 — contradicting
the claim (and the class docstring) that a sample is never paired with
itself.  The relative draw 0 is the only value `batched_randint` can return
for degree 1, and the full call completes without error or warning. -/
theorem mixup_within_group_self_pair :
    selIndices (1/2) 2 [false, true] = [1]
    ∧ degreesOf (connectionsOf (.grp [0, 0]) false [1]) = [1]
    ∧ groupPairIndices (connectionsOf (.grp [0, 0]) false [1]) [1] [0]
        = ([1], [1], false)
    ∧ mixupTransform
        { mode := .linear, p := 1/2, numClasses := none, featurewise := false,
          inplace := false, pw := fun (a : ℚ) _ => a }
        [[4], [6]] none (some (.grp [0, 0])) false none
        { selMask := [false, true], offsets := [], relDraws := [0],
          lamDraws := [[1/2]] }
        = ⟨[[4], [6]], none, false, .ok ([[4], [6]], none)⟩ := by
  refine ⟨?_, by decide, by decide, ?_⟩
  · norm_num [selIndices, List.range_succ]
  · norm_num [mixupTransform, mixupApply, selIndices, connectionsOf,
      fillDiagFalse, degreesOf, filterConnected, trueCols, absPosInds,
      flatPairPos, groupPairIndices, mixRow, broadcastLam, mixElem,
      scatterRows, List.range_succ]

/-- Claim C2, counterexample: the legacy kit transform is not the identity on
a single-sample batch.  With `p = 1` and batch size 1 it reaches
`torch.randint(low=1, high=1, ...)`, which raises (empty range), instead of
returning the inputs unchanged. -/
theorem kit_singleton_batch_raises :
    kitTransform
        { mode := .linear, p := 1, numClasses := none, pw := fun (a : ℚ) _ => a }
        [[(5 : ℚ)]] none [] [] []
      = .error .randintEmptyRange
    ∧ kitTransform
        { mode := .linear, p := 1, numClasses := none, pw := fun (a : ℚ) _ => a }
        [[(5 : ℚ)]] none [] [] []
      ≠ .ok ([[(5 : ℚ)]], none) := by
  exact ⟨by decide, by decide⟩

/-- Claim C3, counterexample: the missing-class-count RuntimeError is raised
only after pair sampling and after the inputs have been mixed.  With
`inplace=True`, batch `[[0], [2]]`, label targets and no class count, the
call raises `missingNumClasses` but the caller-owned inputs buffer has
already been mutated to `[[1], [1]]` (each row mixed with its partner under
`lambda = 1/2`), contradicting that the error precedes sampling and that no
mixing has been applied when it propagates. -/
theorem mixup_missing_classes_inplace_mutation :
    (mixupTransform
        { mode := .linear, p := 1, numClasses := none, featurewise := false,
          inplace := true, pw := fun (a : ℚ) _ => a }
        [[0], [2]] (some (.labels [0, 1])) none true none
        { selMask := [], offsets := [1, 1], relDraws := [],
          lamDraws := [[1/2], [1/2]] }).ret
      = .error .missingNumClasses
    ∧ (mixupTransform
        { mode := .linear, p := 1, numClasses := none, featurewise := false,
          inplace := true, pw := fun (a : ℚ) _ => a }
        [[0], [2]] (some (.labels [0, 1])) none true none
        { selMask := [], offsets := [1, 1], relDraws := [],
          lamDraws := [[1/2], [1/2]] }).callerInputs
      = [[1], [1]]
    ∧ ([[1], [1]] : List (List ℚ)) ≠ [[0], [2]] := by
  refine ⟨?_, ?_, by norm_num⟩ <;>
    norm_num [mixupTransform, mixupApply, selIndices, pairUnconstrained,
      pairOf, mixRow, broadcastLam, mixElem, scatterRows, List.range_succ]

/-- Claim C4, counterexample: a zero-degree selected row does not make the
call abort under any configuration switch — the code has no strict/lenient
policy option.  With `p = 1`, groups `[0, 1, 1]` and within-group pairing,
row 0 has no partner; the call nevertheless succeeds, emits the
RuntimeWarning, leaves row 0 untransformed, and mixes the two connected rows
with each other, i.e. the lenient behavior unconditionally. -/
theorem mixup_zero_degree_concrete_lenient :
    mixupTransform
        { mode := .linear, p := 1, numClasses := none, featurewise := false,
          inplace := false, pw := fun (a : ℚ) _ => a }
        [[10], [20], [30]] none (some (.grp [0, 1, 1])) false none
        { selMask := [], offsets := [], relDraws := [0, 0],
          lamDraws := [[1/2], [1/2]] }
      = { callerInputs := [[10], [20], [30]], callerTargets := none,
          warned := true, ret := .ok ([[10], [25], [25]], none) }
    ∧ degreesOf (connectionsOf (.grp [0, 1, 1]) false [0, 1, 2]) = [0, 1, 1] := by
  refine ⟨?_, by decide⟩
  norm_num [mixupTransform, mixupApply, selIndices, connectionsOf,
    fillDiagFalse, degreesOf, filterConnected, trueCols, absPosInds,
    flatPairPos, groupPairIndices, mixRow, broadcastLam, mixElem,
    scatterRows, List.range_succ]

/-- Claim C6 (code bug): CutMix recomputes the effective lambda from the
realized box correctly, but the target update is the statement pair
`targets[indices] *= lam` then `targets[indices] += targets[pair_indices] *
(1 - lam)`, and the second statement reads partner rows that the first one
has already scaled (the pair map is a roll of the very rows being updated).
On a 2-sample batch with one-hot targets and boxes of extent 1 on 2 x 2
images, the effective lambda is `3/4` for both pairs, yet the produced
target rows are `[3/4, 3/16]` and `[3/16, 3/4]` instead of the claimed
convex combinations `[3/4, 1/4]` and `[1/4, 3/4]` (the partner contribution
is `(1 - lam) * (lam_pair * t_pair)`, not `(1 - lam) * t_pair`; rows no
longer sum to 1). -/
theorem cutmix_partner_rows_prescaled :
    (cutmixTransform { p := 1, numClasses := none, inplace := false }
        [[[[0, 0], [0, 0]]], [[[1, 1], [1, 1]]]]
        (some (.matrix [[1, 0], [0, 1]]))
        { selMask := [], extentsH := [1, 1], extentsW := [1, 1],
          startsH := [0, 0], startsW := [0, 0] }).ret
      = .ok (([[[[1, 1], [1, 1]]], [[[0, 0], [0, 0]]]] : List (Image ℚ)),
          some (.matrix [[3/4, 3/16], [3/16, 3/4]]))
    ∧ (cutEffLambda 2 2 0 0 1 1 : ℚ) = 3/4
    ∧ ([[3/4, 3/16], [3/16, 3/4]] : List (List ℚ))
        ≠ [[3/4 * 1 + (1 - 3/4) * 0, 3/4 * 0 + (1 - 3/4) * 1],
           [3/4 * 0 + (1 - 3/4) * 1, 3/4 * 1 + (1 - 3/4) * 0]] := by
  refine ⟨?_, by norm_num [cutEffLambda], by norm_num⟩
  norm_num [cutmixTransform, selIndices, rollOne, cutMask1D, cutMask2D,
    maskSelectImg, maskSelectChan, maskSelectRow, cutEffLambda, scatterRows,
    MixTargets.len, List.range_succ]


/-- Claim C8 (confirmed): in unconstrained pairing mode with batch size
`N > 1` and selected index `i < N`, the map `o ↦ (i + o) % N` of the source
(line 322 of mixup.py) is a bijection from the offset range `{1, ..., N-1}`
onto the `N - 1` candidates `{0, ..., N-1} \\ {i}`; in particular every
non-self candidate has exactly one preimage offset, so a uniform offset draw
induces the exactly uniform partner distribution over non-self candidates. -/
theorem pair_offset_bijection (N i : ℕ) (hN : 1 < N) (hi : i < N) :
    ((Finset.Icc 1 (N - 1)).image (fun o => pairOf N i o) = (Finset.range N).erase i)
    ∧ Set.InjOn (fun o => pairOf N i o) (Finset.Icc 1 (N - 1))
    ∧ ∀ j ∈ (Finset.range N).erase i,
        ((Finset.Icc 1 (N - 1)).filter (fun o => pairOf N i o = j)).card = 1 := by
  have hinj : Set.InjOn (fun o => pairOf N i o) (Finset.Icc 1 (N - 1)) := by
    intro o1 h1 o2 h2 heq
    simp only [Finset.coe_Icc, Set.mem_Icc] at h1 h2
    have heq2 : pairOf N i o1 = pairOf N i o2 := heq
    rw [pairOf_eq_if hi (by omega), pairOf_eq_if hi (by omega)] at heq2
    split_ifs at heq2 <;> omega
  have himg : (Finset.Icc 1 (N - 1)).image (fun o => pairOf N i o)
      = (Finset.range N).erase i := by
    ext j
    simp only [Finset.mem_image, Finset.mem_Icc, Finset.mem_erase, Finset.mem_range]
    constructor
    · rintro ⟨o, ⟨ho1, ho2⟩, rfl⟩
      rw [pairOf_eq_if hi (by omega)]
      split <;> constructor <;> omega
    · rintro ⟨hji, hj⟩
      refine ⟨if i < j then j - i else N + j - i, ?_, ?_⟩
      · split <;> omega
      · rw [pairOf_eq_if hi (by split <;> omega)]
        split_ifs <;> omega
  refine ⟨himg, hinj, ?_⟩
  intro j hj
  obtain ⟨o, ho, hoj⟩ := Finset.mem_image.mp (himg ▸ hj)
  refine Finset.card_eq_one.mpr ⟨o, ?_⟩
  ext o2
  simp only [Finset.mem_filter, Finset.mem_singleton]
  constructor
  · rintro ⟨ho2, he⟩
    exact hinj (Finset.mem_coe.mpr ho2) (Finset.mem_coe.mpr ho) (he.trans hoj.symm)
  · rintro rfl
    exact ⟨ho, hoj⟩

/-- Claim C9 (confirmed): the CutMix interval masks are inclusive at both
endpoints, so an in-range box of extents `(eH, eW)` marks exactly
`(eH + 1) * (eW + 1)` pixels per channel — strictly more than the box area
`eH * eW` from which the label weight is computed — and hence the realized
fraction of replaced pixels never equals `1 - effective_lambda`. -/
theorem cutmix_mask_exceeds_label_box (H W sH sW eH eW : ℕ)
    (hh : sH + eH < H) (hw : sW + eW < W) :
    countTrue2D (cutMask2D (cutMask1D sW (sW + eW) W) (cutMask1D sH (sH + eH) H))
      = (eH + 1) * (eW + 1)
    ∧ eH * eW < (eH + 1) * (eW + 1)
    ∧ (((eH + 1) * (eW + 1) : ℕ) : ℚ) / ((W * H : ℕ) : ℚ)
        ≠ 1 - (cutEffLambda H W sH sW (sH + eH) (sW + eW) : ℚ) := by
  have h1 : countTrue2D (cutMask2D (cutMask1D sW (sW + eW) W)
      (cutMask1D sH (sH + eH) H)) = (eH + 1) * (eW + 1) := by
    rw [countTrue2D_prod, cutMask1D_countP _ _ _ hw, cutMask1D_countP _ _ _ hh]
    have : sW + eW + 1 - sW = eW + 1 := by omega
    rw [this]
    have : sH + eH + 1 - sH = eH + 1 := by omega
    rw [this]
    ring
  have h2 : eH * eW < (eH + 1) * (eW + 1) := by nlinarith
  refine ⟨h1, h2, ?_⟩
  unfold cutEffLambda
  have hsub1 : sW + eW - sW = eW := by omega
  have hsub2 : sH + eH - sH = eH := by omega
  rw [hsub1, hsub2]
  have hW : (W : ℚ) ≠ 0 := Nat.cast_ne_zero.mpr (by omega)
  have hH : (H : ℚ) ≠ 0 := Nat.cast_ne_zero.mpr (by omega)
  intro hcontra
  push_cast at hcontra
  field_simp at hcontra
  have hkey : (eH + 1) * (eW + 1) = eW * eH := by exact_mod_cast hcontra
  nlinarith


/-- Claim C7 (confirmed): with the in-place flag false, both transforms leave
the caller-owned inputs and targets buffers exactly as supplied — all mixing
happens on fresh clones (or, for one-hot expanded labels, on a freshly
created tensor). -/
theorem out_of_place_preserves_caller_buffers {α : Type} [Field α]
    [Inhabited α] :
    (∀ (cfg : MixUpCfg α) (inputs : List (List α))
        (targets : Option (MixTargets α)) (g : Option GroupsOrEdges)
        (cg : Bool) (nc : Option ℕ) (d : MixDraws α),
        cfg.inplace = false →
        (mixupTransform cfg inputs targets g cg nc d).callerInputs = inputs
        ∧ (mixupTransform cfg inputs targets g cg nc d).callerTargets = targets)
    ∧ (∀ (ccfg : CutMixCfg) (inputs : List (Image α))
        (targets : Option (MixTargets α)) (cd : CutDraws),
        ccfg.inplace = false →
        (cutmixTransform ccfg inputs targets cd).callerInputs = inputs
        ∧ (cutmixTransform ccfg inputs targets cd).callerTargets = targets) :=
  ⟨fun cfg inputs targets g cg nc d hip =>
      mixupTransform_frame cfg inputs targets g cg nc d hip,
   fun ccfg inputs targets cd hip =>
      cutmixTransform_frame ccfg inputs targets cd hip⟩

/-- Witness for claim C7 at a concrete out-of-place call of each transform. -/
theorem out_of_place_preserves_caller_buffers_witness :
    ((mixupTransform
        { mode := .linear, p := 1, numClasses := some 2, featurewise := false,
          inplace := false, pw := fun (a : ℚ) _ => a }
        [[0], [2]] (some (.labels [0, 1])) none true none
        { selMask := [], offsets := [1, 1], relDraws := [],
          lamDraws := [[1/2], [1/2]] }).callerInputs = [[0], [2]]
      ∧ (mixupTransform
        { mode := .linear, p := 1, numClasses := some 2, featurewise := false,
          inplace := false, pw := fun (a : ℚ) _ => a }
        [[0], [2]] (some (.labels [0, 1])) none true none
        { selMask := [], offsets := [1, 1], relDraws := [],
          lamDraws := [[1/2], [1/2]] }).callerTargets = some (.labels [0, 1]))
    ∧ ((cutmixTransform { p := 1, numClasses := none, inplace := false }
        [[[[(0 : ℚ), 0], [0, 0]]], [[[1, 1], [1, 1]]]] none
        { selMask := [], extentsH := [1, 1], extentsW := [1, 1],
          startsH := [0, 0], startsW := [0, 0] }).callerInputs
        = [[[[(0 : ℚ), 0], [0, 0]]], [[[1, 1], [1, 1]]]]
      ∧ (cutmixTransform { p := 1, numClasses := none, inplace := false }
        [[[[(0 : ℚ), 0], [0, 0]]], [[[1, 1], [1, 1]]]] none
        { selMask := [], extentsH := [1, 1], extentsW := [1, 1],
          startsH := [0, 0], startsW := [0, 0] }).callerTargets = none) :=
  ⟨out_of_place_preserves_caller_buffers.1
      { mode := .linear, p := 1, numClasses := some 2, featurewise := false,
        inplace := false, pw := fun (a : ℚ) _ => a }
      [[0], [2]] (some (.labels [0, 1])) none true none
      { selMask := [], offsets := [1, 1], relDraws := [],
        lamDraws := [[1/2], [1/2]] } rfl,
   out_of_place_preserves_caller_buffers.2
      { p := 1, numClasses := none, inplace := false }
      [[[[(0 : ℚ), 0], [0, 0]]], [[[1, 1], [1, 1]]]] none
      { selMask := [], extentsH := [1, 1], extentsW := [1, 1],
        startsH := [0, 0], startsW := [0, 0] } rfl⟩

/-- Witness for claim C8 at `N = 5`, `i = 2`. -/
theorem pair_offset_bijection_witness :
    ((Finset.Icc 1 (5 - 1)).image (fun o => pairOf 5 2 o)
        = (Finset.range 5).erase 2)
    ∧ Set.InjOn (fun o => pairOf 5 2 o) (Finset.Icc 1 (5 - 1))
    ∧ ∀ j ∈ (Finset.range 5).erase 2,
        ((Finset.Icc 1 (5 - 1)).filter (fun o => pairOf 5 2 o = j)).card = 1 :=
  pair_offset_bijection 5 2 (by norm_num) (by norm_num)

/-- Witness for claim C9 on 2 x 2 images with extents 1 and starts 0. -/
theorem cutmix_mask_exceeds_label_box_witness :
    countTrue2D (cutMask2D (cutMask1D 0 (0 + 1) 2) (cutMask1D 0 (0 + 1) 2))
      = (1 + 1) * (1 + 1)
    ∧ 1 * 1 < (1 + 1) * (1 + 1)
    ∧ (((1 + 1) * (1 + 1) : ℕ) : ℚ) / ((2 * 2 : ℕ) : ℚ)
        ≠ 1 - (cutEffLambda 2 2 0 0 (0 + 1) (0 + 1) : ℚ) :=
  cutmix_mask_exceeds_label_box 2 2 0 0 1 1 (by norm_num) (by norm_num)

/-- Claim C10 (confirmed): `RandomMixUp.__call__` accepts a `num_classes`
argument but does not forward it to `_transform`, so the call result is
identical for any two values of that argument; consequently supplying
label-encoded targets together with a call-time class count but no
constructor class count still raises the missing-class-count RuntimeError. -/
theorem mixup_call_ignores_num_classes {α : Type} [Field α] [Inhabited α]
    (cfg : MixUpCfg α) (inputs : List (List α))
    (targets : Option (MixTargets α)) (g : Option GroupsOrEdges) (cg : Bool)
    (nc ncB : Option ℕ) (d : MixDraws α) (ls : List ℕ) :
    mixupCall cfg inputs targets g cg nc d
      = mixupCall cfg inputs targets g cg ncB d
    ∧ (targets = some (.labels ls) → g = none → cfg.numClasses = none →
        1 < inputs.length → cfg.p ≠ 0 →
        (mixupCall cfg inputs targets g cg nc d).ret
          = .error .missingNumClasses) := by
  constructor
  · rfl
  · rintro rfl rfl hcfg hn hp
    exact (mixup_missing_classes_core cfg inputs ls cg d hn hp hcfg).1

/-- Witness for claim C10: a concrete call with call-time `num_classes = 5`
equals the call with `none`, and still raises. -/
theorem mixup_call_ignores_num_classes_witness :
    mixupCall
        { mode := .linear, p := 1, numClasses := none, featurewise := false,
          inplace := false, pw := fun (a : ℚ) _ => a }
        [[0], [2]] (some (.labels [0, 1])) none true (some 5)
        { selMask := [], offsets := [1, 1], relDraws := [],
          lamDraws := [[1/2], [1/2]] }
      = mixupCall
        { mode := .linear, p := 1, numClasses := none, featurewise := false,
          inplace := false, pw := fun (a : ℚ) _ => a }
        [[0], [2]] (some (.labels [0, 1])) none true none
        { selMask := [], offsets := [1, 1], relDraws := [],
          lamDraws := [[1/2], [1/2]] }
    ∧ (mixupCall
        { mode := .linear, p := 1, numClasses := none, featurewise := false,
          inplace := false, pw := fun (a : ℚ) _ => a }
        [[0], [2]] (some (.labels [0, 1])) none true (some 5)
        { selMask := [], offsets := [1, 1], relDraws := [],
          lamDraws := [[1/2], [1/2]] }).ret = .error .missingNumClasses := by
  have h := mixup_call_ignores_num_classes
    { mode := .linear, p := 1, numClasses := none, featurewise := false,
      inplace := false, pw := fun (a : ℚ) _ => a }
    [[0], [2]] (some (.labels [0, 1])) none true (some 5) none
    { selMask := [], offsets := [1, 1], relDraws := [],
      lamDraws := [[1/2], [1/2]] } [0, 1]
  exact ⟨h.1, h.2 rfl rfl rfl (by norm_num) (by norm_num)⟩

/-- Claim C3, amended: supplying label-encoded targets without a class count
(neither at call time nor on the instance) raises the missing-class-count
RuntimeError on every non-trivial unconstrained call, but only after pair
sampling and input mixing; the caller-owned buffers are unmutated when the
error propagates provided the transform is out-of-place (`inplace=False`) —
with `inplace=True` the inputs have already been mixed (see the
counterexample). -/
theorem mixup_missing_classes_error_after_mixing {α : Type} [Field α]
    [Inhabited α] (cfg : MixUpCfg α) (inputs : List (List α)) (ls : List ℕ)
    (cg : Bool) (d : MixDraws α) (hn : 1 < inputs.length) (hp : cfg.p ≠ 0)
    (hcfg : cfg.numClasses = none) :
    (mixupTransform cfg inputs (some (.labels ls)) none cg none d).ret
        = .error .missingNumClasses
    ∧ (cfg.inplace = false →
        (mixupTransform cfg inputs (some (.labels ls)) none cg none d).callerInputs
            = inputs
        ∧ (mixupTransform cfg inputs (some (.labels ls)) none cg none d).callerTargets
            = some (.labels ls)) := by
  obtain ⟨h1, h2, h3⟩ := mixup_missing_classes_core cfg inputs ls cg d hn hp hcfg
  exact ⟨h1, fun hip => ⟨h3 hip, h2⟩⟩

/-- Witness for the amended claim C3 at a concrete out-of-place call. -/
theorem mixup_missing_classes_error_after_mixing_witness :
    (mixupTransform
        { mode := .linear, p := 1, numClasses := none, featurewise := false,
          inplace := false, pw := fun (a : ℚ) _ => a }
        [[0], [2]] (some (.labels [0, 1])) none true none
        { selMask := [], offsets := [1, 1], relDraws := [],
          lamDraws := [[1/2], [1/2]] }).ret = .error .missingNumClasses
    ∧ (({ mode := .linear, p := 1, numClasses := none, featurewise := false,
          inplace := false, pw := fun (a : ℚ) _ => a } : MixUpCfg ℚ).inplace = false →
        (mixupTransform
          { mode := .linear, p := 1, numClasses := none, featurewise := false,
            inplace := false, pw := fun (a : ℚ) _ => a }
          [[0], [2]] (some (.labels [0, 1])) none true none
          { selMask := [], offsets := [1, 1], relDraws := [],
            lamDraws := [[1/2], [1/2]] }).callerInputs = [[0], [2]]
        ∧ (mixupTransform
          { mode := .linear, p := 1, numClasses := none, featurewise := false,
            inplace := false, pw := fun (a : ℚ) _ => a }
          [[0], [2]] (some (.labels [0, 1])) none true none
          { selMask := [], offsets := [1, 1], relDraws := [],
            lamDraws := [[1/2], [1/2]] }).callerTargets = some (.labels [0, 1])) :=
  mixup_missing_classes_error_after_mixing
    { mode := .linear, p := 1, numClasses := none, featurewise := false,
      inplace := false, pw := fun (a : ℚ) _ => a }
    [[0], [2]] [0, 1] true
    { selMask := [], offsets := [1, 1], relDraws := [],
      lamDraws := [[1/2], [1/2]] } (by norm_num) (by norm_num) rfl


/-- Claim C2, amended: the current (`ranzen`) MixUp and CutMix transforms are
the identity whenever the batch has exactly one sample or `p = 0` — they
return the very inputs and targets they were given, and the outcome is
independent of every random draw (the draws record does not occur in the
result), so no sampling is consumed; for CutMix the targets size check still
precedes the short-circuit.  The legacy `kit` transform is the identity only
for `p = 0`: on a single-sample batch with `p > 0` it raises instead (see the
counterexample). -/
theorem transforms_trivial_identity {α : Type} [Field α] [Inhabited α] :
    (∀ (cfg : MixUpCfg α) (inputs : List (List α))
        (targets : Option (MixTargets α)) (g : Option GroupsOrEdges)
        (cg : Bool) (nc : Option ℕ) (d : MixDraws α),
        inputs.length = 1 ∨ cfg.p = 0 →
        mixupTransform cfg inputs targets g cg nc d
          = ⟨inputs, targets, false, .ok (inputs, targets)⟩)
    ∧ (∀ (ccfg : CutMixCfg) (inputs : List (Image α))
        (targets : Option (MixTargets α)) (cd : CutDraws),
        inputs.length = 1 ∨ ccfg.p = 0 →
        (match targets with | some t => t.len = inputs.length | none => True) →
        cutmixTransform ccfg inputs targets cd
          = ⟨inputs, targets, .ok (inputs, targets)⟩)
    ∧ (∀ (kcfg : KitMixUpCfg α) (inputs : List (List α))
        (targets : Option (MixTargets α)) (sm : List Bool) (off : List ℕ)
        (ld : List α),
        kcfg.p = 0 →
        kitTransform kcfg inputs targets sm off ld = .ok (inputs, targets)) := by
  refine ⟨?_, ?_, ?_⟩
  · intro cfg inputs targets g cg nc d h
    simp only [mixupTransform, if_pos h]
  · intro ccfg inputs targets cd h hsz
    rcases targets with _ | t
    · simp only [cutmixTransform]
      rw [if_neg (by simp), if_pos h]
    · simp only [cutmixTransform]
      rw [if_neg (by simp [hsz]), if_pos h]
  · intro kcfg inputs targets sm off ld h
    simp only [kitTransform, if_pos h]

/-- Witness for the amended claim C2: a one-sample MixUp batch, a
probability-zero CutMix call, and a probability-zero kit call. -/
theorem transforms_trivial_identity_witness :
    mixupTransform
        { mode := .linear, p := 1, numClasses := none, featurewise := false,
          inplace := false, pw := fun (a : ℚ) _ => a }
        [[7]] (some (.labels [0])) none true none
        { selMask := [], offsets := [], relDraws := [], lamDraws := [] }
      = ⟨[[7]], some (.labels [0]), false, .ok ([[7]], some (.labels [0]))⟩
    ∧ cutmixTransform { p := 0, numClasses := none, inplace := false }
        [[[[(3 : ℚ)]]], [[[4]]]] none
        { selMask := [], extentsH := [], extentsW := [],
          startsH := [], startsW := [] }
      = ⟨[[[[(3 : ℚ)]]], [[[4]]]], none, .ok ([[[[(3 : ℚ)]]], [[[4]]]], none)⟩
    ∧ kitTransform
        { mode := .linear, p := 0, numClasses := none,
          pw := fun (a : ℚ) _ => a } [[7], [8]] none [] [] []
      = .ok ([[7], [8]], none) :=
  ⟨transforms_trivial_identity.1
      { mode := .linear, p := 1, numClasses := none, featurewise := false,
        inplace := false, pw := fun (a : ℚ) _ => a }
      [[7]] (some (.labels [0])) none true none
      { selMask := [], offsets := [], relDraws := [], lamDraws := [] }
      (Or.inl rfl),
   transforms_trivial_identity.2.1 { p := 0, numClasses := none, inplace := false }
      [[[[(3 : ℚ)]]], [[[4]]]] none
      { selMask := [], extentsH := [], extentsW := [],
        startsH := [], startsW := [] }
      (Or.inr rfl) trivial,
   transforms_trivial_identity.2.2
      { mode := .linear, p := 0, numClasses := none, pw := fun (a : ℚ) _ => a }
      [[7], [8]] none [] [] [] rfl⟩


/-- Claim C4, amended: zero-degree selected rows are always handled
leniently — there is no strict/lenient configuration switch and no abort.
With full selection (`p = 1`) in group/connectivity mode, whenever some
selected row has no eligible partner the call still succeeds (returning the
inputs with exactly the connected rows transformed), every zero-degree row
is dropped from the selection and left untouched in the output, and the
RuntimeWarning flag is set.  No configuration value produces the claimed
strict abort (see the counterexample for a concrete lenient run). -/
theorem mixup_zero_degree_rows_dropped {β : Type} [Field β] [Inhabited β]
    (cfg : MixUpCfg β) (inputs : List (List β)) (g : GroupsOrEdges) (cg : Bool)
    (nc : Option ℕ) (d : MixDraws β) (hp : cfg.p = 1) (hn : 1 < inputs.length)
    (hshape : match g with
      | .grp gs => gs.length = inputs.length
      | .adj m => inputs.length ≤ m.length
          ∧ ∀ row ∈ m, row.length = inputs.length) :
    (∃ I2, (mixupTransform cfg inputs none (some g) cg nc d).ret = .ok (I2, none)
        ∧ ∀ k < inputs.length,
            (degreesOf (connectionsOf g cg (List.range inputs.length))).getD k 0 = 0 →
            I2.getD k [] = inputs.getD k [])
    ∧ ((∃ k, k < inputs.length
          ∧ (degreesOf (connectionsOf g cg (List.range inputs.length))).getD k 0
              = 0) →
        (mixupTransform cfg inputs none (some g) cg nc d).warned = true) := by
  have hcond : ¬(inputs.length = 1 ∨ (1 : ℚ) = 0) := by
    push_neg
    exact ⟨by omega, by norm_num⟩
  have hconn_len : (connectionsOf g cg (List.range inputs.length)).length
      = inputs.length := by
    rw [connectionsOf_length, List.length_range]
  rcases g with gs | m
  · have hsh : gs.length = inputs.length := hshape
    have hrow : ∀ row ∈ connectionsOf (.grp gs) cg (List.range inputs.length),
        row.length ≤ inputs.length := by
      intro row hr
      rw [connectionsOf_grp_row gs cg _ row hr, hsh]
    simp only [mixupTransform, hp, selIndices_p_one]
    rw [if_neg hcond, if_neg (by simp [hsh])]
    exact lenient_tail cfg inputs nc d _ hn hconn_len hrow
  · have hsh : inputs.length ≤ m.length ∧ ∀ row ∈ m, row.length = inputs.length :=
      hshape
    have hrow : ∀ row ∈ connectionsOf (.adj m) cg (List.range inputs.length),
        row.length ≤ inputs.length := by
      refine connectionsOf_adj_row m cg _ _ ?_ ?_
      · intro i hi
        exact lt_of_lt_of_le (List.mem_range.mp hi) hsh.1
      · intro r hr
        exact le_of_eq (hsh.2 r hr)
    have hany : ((List.range inputs.length).any
        fun i => decide (m.length ≤ i)) = false :=
      any_ge_eq_false (fun i hi => lt_of_lt_of_le (List.mem_range.mp hi) hsh.1)
    simp only [mixupTransform, hp, selIndices_p_one]
    rw [if_neg hcond, if_neg (by simp [hany])]
    exact lenient_tail cfg inputs nc d _ hn hconn_len hrow

/-- Witness for the amended claim C4: groups `[0, 1, 1]`, within-group
pairing, and full selection; row 0 has degree 0. -/
theorem mixup_zero_degree_rows_dropped_witness :
    (∃ I2, (mixupTransform
        { mode := .linear, p := 1, numClasses := none, featurewise := false,
          inplace := false, pw := fun (a : ℚ) _ => a }
        [[10], [20], [30]] none (some (.grp [0, 1, 1])) false none
        { selMask := [], offsets := [], relDraws := [0, 0],
          lamDraws := [[1/2], [1/2]] }).ret = .ok (I2, none)
      ∧ ∀ k < 3,
          (degreesOf (connectionsOf (.grp [0, 1, 1]) false (List.range 3))).getD k 0
            = 0 →
          I2.getD k [] = ([[10], [20], [30]] : List (List ℚ)).getD k [])
    ∧ ((∃ k, k < 3
          ∧ (degreesOf (connectionsOf (.grp [0, 1, 1]) false (List.range 3))).getD k 0
              = 0) →
        (mixupTransform
          { mode := .linear, p := 1, numClasses := none, featurewise := false,
            inplace := false, pw := fun (a : ℚ) _ => a }
          [[10], [20], [30]] none (some (.grp [0, 1, 1])) false none
          { selMask := [], offsets := [], relDraws := [0, 0],
            lamDraws := [[1/2], [1/2]] }).warned = true) :=
  mixup_zero_degree_rows_dropped
    { mode := .linear, p := 1, numClasses := none, featurewise := false,
      inplace := false, pw := fun (a : ℚ) _ => a }
    [[10], [20], [30]] (.grp [0, 1, 1]) false none
    { selMask := [], offsets := [], relDraws := [0, 0],
      lamDraws := [[1/2], [1/2]] } rfl (by decide) rfl


/-- Claim C5, amended: in the linear mixing mode, for every lambda
configuration (sample-wise scalar or featurewise, whose target weight is the
per-sample mean), every target matrix returned by a successful call has rows
summing to 1, provided the supplied targets do (one-hot expansion of
label-encoded targets yields this automatically; for matrix targets it is a
hypothesis together with rectangularity).  In the geometric mode the
invariant fails (see the counterexample). -/
theorem mixup_linear_target_row_sums {β : Type} [Field β] [Inhabited β]
    (cfg : MixUpCfg β) (inputs : List (List β)) (t : MixTargets β)
    (g : Option GroupsOrEdges) (cg : Bool) (nc : Option ℕ) (d : MixDraws β)
    (I2 T2 : List (List β))
    (hmode : cfg.mode = MixUpMode.linear)
    (hmt : match t with
      | .labels _ => True
      | .matrix mt => (∀ row ∈ mt, row.sum = 1)
          ∧ ∃ c, ∀ row ∈ mt, row.length = c)
    (hret : (mixupTransform cfg inputs (some t) g cg nc d).ret
        = .ok (I2, some (.matrix T2))) :
    ∀ row ∈ T2, row.sum = 1 := by
  simp only [mixupTransform] at hret
  split at hret
  · rcases t with ls | mt
    · simp at hret
    · simp only [Except.ok.injEq, Prod.mk.injEq, Option.some.injEq,
        MixTargets.matrix.injEq] at hret
      obtain ⟨-, hT⟩ := hret
      subst hT
      exact hmt.1
  · split at hret
    · exact mixupApply_row_sums cfg inputs t nc _ _ d.lamDraws false I2 T2
        hmode hmt hret
    · split at hret
      · simp at hret
      · split at hret
        · rcases t with ls | mt
          · simp at hret
          · simp only [Except.ok.injEq, Prod.mk.injEq, Option.some.injEq,
              MixTargets.matrix.injEq] at hret
            obtain ⟨-, hT⟩ := hret
            subst hT
            exact hmt.1
        · exact mixupApply_row_sums cfg inputs t nc _ _ d.lamDraws _ I2 T2
            hmode hmt hret

/-- Claim C5, counterexample: in geometric mode the mixed one-hot target row
`mix([1,0], [0,1], 1/2) = [1^(1/2) * 0^(1/2), 0^(1/2) * 1^(1/2)] = [0, 0]`
sums to 0, not 1 — the claimed row-sum invariant does not hold in every
mixing mode. -/
theorem geometric_mix_breaks_target_row_sum :
    (mixRow MixUpMode.geometric (fun a b : ℝ => a ^ b) [(1/2 : ℝ)]
        [1, 0] [0, 1]).sum = 0
    ∧ (mixRow MixUpMode.geometric (fun a b : ℝ => a ^ b) [(1/2 : ℝ)]
        [1, 0] [0, 1]).sum ≠ 1 := by
  have h : mixRow MixUpMode.geometric (fun a b : ℝ => a ^ b) [(1/2 : ℝ)]
      [1, 0] [0, 1]
      = [(1 : ℝ) ^ (1/2 : ℝ) * (0 : ℝ) ^ (1 - 1/2 : ℝ),
         (0 : ℝ) ^ (1/2 : ℝ) * (1 : ℝ) ^ (1 - 1/2 : ℝ)] := by
    rw [mixRow_singleton]
    simp [mixElem]
  have h0 : (0 : ℝ) ^ (1/2 : ℝ) = 0 := Real.zero_rpow (by norm_num)
  have h0b : (0 : ℝ) ^ (1 - 1/2 : ℝ) = 0 := Real.zero_rpow (by norm_num)
  rw [h, Real.one_rpow, Real.one_rpow, h0, h0b]
  norm_num

/-- Witness for the amended claim C5: a concrete linear call with one-hot
matrix targets produces the row `[1/2, 1/2]`, which sums to 1. -/
theorem mixup_linear_target_row_sums_witness :
    ([(1 : ℚ)/2, 1/2]).sum = 1 :=
  mixup_linear_target_row_sums
    { mode := .linear, p := 1, numClasses := none, featurewise := false,
      inplace := false, pw := fun (a : ℚ) _ => a }
    [[0], [2]] (.matrix [[1, 0], [0, 1]]) none true none
    { selMask := [], offsets := [1, 1], relDraws := [],
      lamDraws := [[1/2], [1/2]] }
    [[1], [1]] [[1/2, 1/2], [1/2, 1/2]] rfl
    ⟨by
      intro row hr
      simp only [List.mem_cons, List.not_mem_nil, or_false] at hr
      rcases hr with rfl | rfl <;> norm_num,
     ⟨2, by
      intro row hr
      simp only [List.mem_cons, List.not_mem_nil, or_false] at hr
      rcases hr with rfl | rfl <;> norm_num⟩⟩
    (by
      norm_num [mixupTransform, mixupApply, mixupTargetsTail, selIndices,
        pairUnconstrained, pairOf, mixRow_singleton, mixElem, scatterRows,
        targetLam, meanList, List.range_succ])
    [1/2, 1/2] (by simp)

end Ranzen
